import Mathlib

/-!
# Verification of the qtile `Stack` layout engine

Shallow embedding of `libqtile/layout/stack.py`: the `Stack` layout class
(`StackLayout` below) and its per-column `_WinStack` containers.  Client
handles are modelled as natural numbers.  The group's current window
(`self.group.current_window`), an external input, is passed explicitly as a
`gw : Option Nat` argument to every operation that reads it.

The `_ClientList` base class lives in `libqtile/layout/base.py`, which is not
part of the sources; its operations (`add_client`, `remove`, `focus`, `join`,
`current_client`) are modelled from the specification's description of
ClientList and are marked as such.
-/

/-- A `_WinStack`: an ordered list of client handles, a current index, and a
split flag.  Mirrors `_WinStack(_ClientList)` from `stack.py`. -/
structure WinStack where
  clients : List Nat
  curIdx : Nat
  split : Bool
  deriving Repr, DecidableEq

instance : Inhabited WinStack := ⟨⟨[], 0, false⟩⟩

/-- Insert `a` into `l` before position `n` (clamped to the end), i.e. Python
`l.insert(n, a)` / slice assignment semantics. -/
def insertAt (l : List Nat) (n : Nat) (a : Nat) : List Nat :=
  l.take n ++ a :: l.drop n

namespace WinStack

/-- Modelled from the spec (`_ClientList.current_client`, missing
`libqtile/layout/base.py`): `None` when empty, else the member at the current
index, which is read modulo the length so it self-wraps. -/
def cw (s : WinStack) : Option Nat :=
  if s.clients.isEmpty then none
  else s.clients.get? (s.curIdx % s.clients.length)

/-- Modelled from the spec (`_ClientList.add`, missing
`libqtile/layout/base.py`): inserts immediately after the current member and
makes the new client current. -/
def addClient (s : WinStack) (c : Nat) : WinStack :=
  if s.clients.isEmpty then { s with clients := [c], curIdx := 0 }
  else
    let pos := s.curIdx % s.clients.length + 1
    { s with clients := insertAt s.clients pos c, curIdx := pos }

/-- Modelled from the spec (`_ClientList.remove`, missing
`libqtile/layout/base.py`): removes the client if present and clamps the
current index into the valid range of the remaining sequence; a no-op when
the client is absent. -/
def remove (s : WinStack) (c : Nat) : WinStack :=
  if s.clients.contains c then
    let cls := s.clients.erase c
    { s with clients := cls, curIdx := min s.curIdx (cls.length - 1) }
  else s

/-- Modelled from the spec (`_ClientList.focus`, missing
`libqtile/layout/base.py`): sets the current index to the client's position
if present; a no-op otherwise. -/
def focus (s : WinStack) (c : Nat) : WinStack :=
  if s.clients.contains c then { s with curIdx := s.clients.indexOf c } else s

/-- Modelled from the spec (`_ClientList.join`, missing
`libqtile/layout/base.py`): splices the other list's members in at the given
position relative to the current index (clamped into range). -/
def join (s : WinStack) (other : WinStack) (offset : Nat) : WinStack :=
  let pos :=
    if s.clients.isEmpty then 0
    else min (s.curIdx % s.clients.length + offset) s.clients.length
  { s with clients := s.clients.take pos ++ other.clients ++ s.clients.drop pos }

end WinStack

/-- The configuration options of the `Stack` layout (`Stack.defaults` in
`stack.py`), with their source defaults.  Border colours are strings; the
two optional stack colours are `none` when unconfigured (Python `None`). -/
structure StackConfig where
  border_focus : String := "#0000ff"
  border_normal : String := "#000000"
  border_focus_stack : Option String := none
  border_normal_stack : Option String := none
  border_width : Nat := 1
  autosplit : Bool := false
  num_stacks : Int := 2
  fair : Bool := false
  margin : Nat := 0
  deriving Repr, DecidableEq

/-- The `Stack` layout engine state: the configuration and the ordered
sequence of stacks (`self.stacks`; named `stackList` here). -/
structure StackLayout where
  cfg : StackConfig
  stackList : List WinStack
  deriving Repr, DecidableEq

/-- Replace the stack at index `i` by `f` applied to it (Python's in-place
mutation of `self.stackList[i]`); out-of-range indices leave the list unchanged. -/
def modifyIdx : List WinStack → Nat → (WinStack → WinStack) → List WinStack
  | [], _, _ => []
  | s :: rest, 0, f => f s :: rest
  | s :: rest, n + 1, f => s :: modifyIdx rest n f

namespace StackLayout

/-- `Stack.__init__`: rejects `num_stacks <= 0` with a `ValueError`, else
builds `num_stacks` empty stacks, split iff `autosplit`. -/
def init (cfg : StackConfig) : Except String StackLayout :=
  if cfg.num_stacks ≤ 0 then
    Except.error "num_stacks must be at least 1"
  else
    Except.ok ⟨cfg, List.replicate cfg.num_stacks.toNat ⟨[], 0, cfg.autosplit⟩⟩

/-- `Stack.current_stack_offset`: index of the first stack containing the
group's current window, else 0. -/
def currentStackOffset (l : StackLayout) (gw : Option Nat) : Nat :=
  match gw with
  | none => 0
  | some w =>
    match l.stackList.findIdx? (fun s => s.clients.contains w) with
    | some i => i
    | none => 0

/-- `Stack.clients`: the aggregate client list, built by extending an
accumulator with each stack's clients in order. -/
def clients (l : StackLayout) : List Nat :=
  l.stackList.foldl (fun acc s => acc ++ s.clients) []

/-- `Stack._find_next(lst, offset)`: the first non-empty stack in
`lst[offset+1:]`, else the first non-empty stack in `lst[:offset]`
(a `_WinStack` is truthy iff non-empty). -/
def findNext (lst : List WinStack) (offset : Nat) : Option WinStack :=
  ((lst.drop (offset + 1)).find? (fun s => !s.clients.isEmpty)).or
    ((lst.take offset).find? (fun s => !s.clients.isEmpty))

/-- Index of the first stack of minimal length (`min(self.stackList, key=len)`
keeps the first of the minima). -/
def fairIdx : List WinStack → Nat
  | [] => 0
  | [_] => 0
  | s :: t :: rest =>
    let j := StackLayout.fairIdx (t :: rest)
    if ((t :: rest).getD j default).clients.length < s.clients.length then j + 1 else 0

/-- `Stack.add_client`: first empty stack if any; else the first stack of
minimal length when `fair`; else the current stack. -/
def addClient (l : StackLayout) (gw : Option Nat) (c : Nat) : StackLayout :=
  match l.stackList.findIdx? (fun s => s.clients.isEmpty) with
  | some i => { l with stackList := modifyIdx l.stackList i (fun s => s.addClient c) }
  | none =>
    if l.cfg.fair then
      { l with stackList := modifyIdx l.stackList (fairIdx l.stackList) (fun s => s.addClient c) }
    else
      { l with stackList := modifyIdx l.stackList (l.currentStackOffset gw) (fun s => s.addClient c) }

/-- `Stack.remove`: drops the client from the first stack containing it, then
returns the new focus target: the current client of the stack at the old
current offset if that stack is non-empty, else the first non-empty stack of
the reversed sequence searched from the old offset's mirrored position. -/
def removeClient (l : StackLayout) (gw : Option Nat) (c : Nat) :
    StackLayout × Option Nat :=
  let co := l.currentStackOffset gw
  let stackList' :=
    match l.stackList.findIdx? (fun s => s.clients.contains c) with
    | some i => modifyIdx l.stackList i (fun s => s.remove c)
    | none => l.stackList
  let ret :=
    match (stackList'.getD co default).cw with
    | some w => some w
    | none => (findNext stackList'.reverse (stackList'.length - co - 1)).bind WinStack.cw
  ({ l with stackList := stackList' }, ret)

/-- `Stack.delete_current_stack`: when more than one stack exists, removes the
current stack, clamps the offset, and joins the removed stack's members into
the stack now at that offset at relative position 1. -/
def deleteCurrentStack (l : StackLayout) (gw : Option Nat) : StackLayout :=
  if 1 < l.stackList.length then
    let off := l.currentStackOffset gw
    let s := l.stackList.getD off default
    let stackList' := l.stackList.eraseIdx off
    let off' := min off (stackList'.length - 1)
    { l with stackList := modifyIdx stackList' off' (fun t => t.join s 1) }
  else l

/-- `Stack.next_stack`: the focus target requested from the group, or `none`
when no request is issued. -/
def nextStack (l : StackLayout) (gw : Option Nat) : Option Nat :=
  (findNext l.stackList (l.currentStackOffset gw)).bind WinStack.cw

/-- `Stack.previous_stack`: the focus target requested from the group, or
`none` when no request is issued. -/
def previousStack (l : StackLayout) (gw : Option Nat) : Option Nat :=
  (findNext l.stackList.reverse (l.stackList.length - l.currentStackOffset gw - 1)).bind
    WinStack.cw

/-- `Stack.client_to_stack(n)`: a no-op when the current stack is empty; else
moves the current stack's current client into stack `n mod len(stackList)`
(Python modulo, always non-negative) and focuses it there. -/
def clientToStack (l : StackLayout) (gw : Option Nat) (n : Int) : StackLayout :=
  let co := l.currentStackOffset gw
  let cur := l.stackList.getD co default
  if cur.clients.isEmpty then l
  else
    match cur.cw with
    | none => l
    | some win =>
      let nxt := (n % (l.stackList.length : Int)).toNat
      let stackList₁ := modifyIdx l.stackList co (fun s => s.remove win)
      { l with stackList := modifyIdx stackList₁ nxt (fun s => (s.addClient win).focus win) }

/-- `Stack.rotate`: moves the last stack to the front. -/
def rotate (l : StackLayout) : StackLayout :=
  if l.stackList.isEmpty then l
  else { l with stackList := (l.stackList.getLast?).toList ++ l.stackList.dropLast }

/-- `Stack.add`: appends a fresh empty stack, split iff `autosplit`. -/
def addStack (l : StackLayout) : StackLayout :=
  { l with stackList := l.stackList ++ [⟨[], 0, l.cfg.autosplit⟩] }

end StackLayout

/-- The screen rectangle handed to `configure` (`ScreenRect`): position may be
anywhere, width and height are non-negative. -/
structure ScreenRect where
  x : Int
  y : Int
  width : Nat
  height : Nat
  deriving Repr, DecidableEq

/-- What `Stack.configure` does to the client it is called on: either the
client is hidden, or it is placed (`client.place(x, y, w, h, border_width,
color, margin)`) and unhidden. -/
inductive ConfigureResult where
  | hidden
  | placed (x y w h : Int) (bw : Nat) (color : String) (margin : Nat)
  deriving Repr, DecidableEq

/-- `Stack.configure(client, screen_rect)`: locates the first stack containing
the client (hiding it when none does), picks the border colour from the focus
state and the stack's split flag, computes the column geometry, and places or
hides the client. -/
def StackLayout.configure (l : StackLayout) (client : Nat) (hasFocus : Bool)
    (r : ScreenRect) : ConfigureResult :=
  match l.stackList.findIdx? (fun s => s.clients.contains client) with
  | none => ConfigureResult.hidden
  | some i =>
    let s := l.stackList.getD i default
    let px :=
      if hasFocus then
        match l.cfg.border_focus_stack with
        | some bfs => if s.split then l.cfg.border_focus else bfs
        | none => l.cfg.border_focus
      else
        match l.cfg.border_normal_stack with
        | some bns => if s.split then l.cfg.border_normal else bns
        | none => l.cfg.border_normal
    let columnWidth : Nat := r.width / l.stackList.length
    let xoffset : Int := r.x + (i : Int) * (columnWidth : Int)
    let windowWidth : Int := (columnWidth : Int) - 2 * (l.cfg.border_width : Int)
    if s.split then
      let columnHeight : Nat := r.height / s.clients.length
      let windowHeight : Int := (columnHeight : Int) - 2 * (l.cfg.border_width : Int)
      let yoffset : Int := r.y + (s.clients.indexOf client : Int) * (columnHeight : Int)
      ConfigureResult.placed xoffset yoffset windowWidth windowHeight
        l.cfg.border_width px l.cfg.margin
    else
      if s.cw = some client then
        ConfigureResult.placed xoffset r.y windowWidth
          ((r.height : Int) - 2 * (l.cfg.border_width : Int))
          l.cfg.border_width px l.cfg.margin
      else ConfigureResult.hidden

/-- One externally triggered operation on the layout engine.  The group's
current window at the moment of the call is an input of each state-reading
operation. -/
inductive StackOp where
  | addClient (gw : Option Nat) (c : Nat)
  | remove (gw : Option Nat) (c : Nat)
  | deleteCurrent (gw : Option Nat)
  | clientToStack (gw : Option Nat) (n : Int)
  | rotate
  | addStack
  deriving Repr, DecidableEq

/-- Apply one operation to the engine state. -/
def applyOp (l : StackLayout) : StackOp → StackLayout
  | StackOp.addClient gw c => l.addClient gw c
  | StackOp.remove gw c => (l.removeClient gw c).1
  | StackOp.deleteCurrent gw => l.deleteCurrentStack gw
  | StackOp.clientToStack gw n => l.clientToStack gw n
  | StackOp.rotate => l.rotate
  | StackOp.addStack => l.addStack

/-- The caller's contract: `add_client` is only invoked with a client not
already managed by the layout; the other operations are unrestricted. -/
def ValidOp (l : StackLayout) : StackOp → Prop
  | StackOp.addClient _ c => c ∉ l.clients
  | _ => True

/-- Engine states reachable from a successful construction by valid
operations. -/
inductive Reachable : StackLayout → Prop where
  | init (cfg : StackConfig) (l : StackLayout) (h : StackLayout.init cfg = Except.ok l) :
      Reachable l
  | step (l : StackLayout) (op : StackOp) (hr : Reachable l) (hv : ValidOp l op) :
      Reachable (applyOp l op)

/-! ## Helper definitions and lemmas -/

/-- The concatenation of the stacks' member lists. -/
def joinClients (ss : List WinStack) : List Nat :=
  (ss.map WinStack.clients).flatten

theorem joinClients_nil : joinClients [] = [] := rfl

theorem joinClients_cons (s : WinStack) (ss : List WinStack) :
    joinClients (s :: ss) = s.clients ++ joinClients ss := by
  simp [joinClients]

theorem joinClients_append (ss tt : List WinStack) :
    joinClients (ss ++ tt) = joinClients ss ++ joinClients tt := by
  simp [joinClients]

theorem foldl_append_clients (ss : List WinStack) (acc : List Nat) :
    ss.foldl (fun a s => a ++ s.clients) acc = acc ++ joinClients ss := by
  induction ss generalizing acc with
  | nil => simp [joinClients]
  | cons s ss ih => simp [joinClients_cons, ih, List.append_assoc]

theorem clients_eq_joinClients (l : StackLayout) :
    l.clients = joinClients l.stackList := by
  simpa using foldl_append_clients l.stackList []

theorem joinClients_perm_of_perm {ss tt : List WinStack} (h : ss.Perm tt) :
    (joinClients ss).Perm (joinClients tt) :=
  (h.map WinStack.clients).flatten

theorem modifyIdx_length (ss : List WinStack) (i : Nat) (f : WinStack → WinStack) :
    (modifyIdx ss i f).length = ss.length := by
  induction ss generalizing i with
  | nil => rfl
  | cons s ss ih =>
    cases i with
    | zero => rfl
    | succ n => simpa [modifyIdx] using ih n

theorem modifyIdx_decomp (ss : List WinStack) (i : Nat) (f : WinStack → WinStack)
    (d : WinStack) (h : i < ss.length) :
    modifyIdx ss i f = ss.take i ++ f (ss.getD i d) :: ss.drop (i + 1) := by
  induction ss generalizing i with
  | nil => simp at h
  | cons s ss ih =>
    cases i with
    | zero => simp [modifyIdx]
    | succ n =>
      have hn : n < ss.length := Nat.lt_of_succ_lt_succ h
      simp [modifyIdx, ih n hn, List.getD]

theorem list_decomp (ss : List WinStack) (i : Nat) (d : WinStack) (h : i < ss.length) :
    ss = ss.take i ++ ss.getD i d :: ss.drop (i + 1) := by
  induction ss generalizing i with
  | nil => simp at h
  | cons s ss ih =>
    cases i with
    | zero => simp
    | succ n =>
      have hn : n < ss.length := Nat.lt_of_succ_lt_succ h
      have := ih n hn
      simpa [List.getD] using congrArg (s :: ·) this

theorem modifyIdx_getD_same (ss : List WinStack) (i : Nat) (f : WinStack → WinStack)
    (d : WinStack) (h : i < ss.length) :
    (modifyIdx ss i f).getD i d = f (ss.getD i d) := by
  induction ss generalizing i with
  | nil => simp at h
  | cons s ss ih =>
    cases i with
    | zero => rfl
    | succ n => simpa [modifyIdx, List.getD] using ih n (Nat.lt_of_succ_lt_succ h)

theorem modifyIdx_getD_other (ss : List WinStack) (i j : Nat) (f : WinStack → WinStack)
    (d : WinStack) (h : j ≠ i) :
    (modifyIdx ss i f).getD j d = ss.getD j d := by
  induction ss generalizing i j with
  | nil => rfl
  | cons s ss ih =>
    cases i with
    | zero =>
      cases j with
      | zero => exact absurd rfl h
      | succ m => rfl
    | succ n =>
      cases j with
      | zero => rfl
      | succ m =>
        have : m ≠ n := fun hc => h (by simp [hc])
        simpa [modifyIdx, List.getD] using ih n m this

theorem modifyIdx_of_ge (ss : List WinStack) (i : Nat) (f : WinStack → WinStack)
    (h : ss.length ≤ i) : modifyIdx ss i f = ss := by
  induction ss generalizing i with
  | nil => rfl
  | cons s ss ih =>
    cases i with
    | zero => simp at h
    | succ n => simpa [modifyIdx] using ih n (Nat.le_of_succ_le_succ h)

theorem WinStack.remove_clients (s : WinStack) (c : Nat) :
    (s.remove c).clients = s.clients.erase c := by
  by_cases h : c ∈ s.clients
  · simp [WinStack.remove, h]
  · have hc : s.clients.contains c = false := by
      simpa [List.contains] using h
    simp only [WinStack.remove, hc, Bool.false_eq_true, if_false]
    exact (List.erase_of_not_mem h).symm

theorem WinStack.focus_clients (s : WinStack) (c : Nat) :
    (s.focus c).clients = s.clients := by
  by_cases h : c ∈ s.clients <;> simp [WinStack.focus, h]

theorem WinStack.addClient_clients_perm (s : WinStack) (c : Nat) :
    (s.addClient c).clients.Perm (c :: s.clients) := by
  by_cases h : s.clients.isEmpty
  · simp [WinStack.addClient, h, List.isEmpty_iff.mp h]
  · simp only [WinStack.addClient, h, Bool.false_eq_true, if_false, insertAt]
    have h1 : s.clients.take (s.curIdx % s.clients.length + 1) ++
        c :: s.clients.drop (s.curIdx % s.clients.length + 1) |>.Perm
        (c :: (s.clients.take (s.curIdx % s.clients.length + 1) ++
          s.clients.drop (s.curIdx % s.clients.length + 1))) := List.perm_middle
    rwa [List.take_append_drop] at h1

theorem WinStack.join_clients_perm (s other : WinStack) (k : Nat) :
    (s.join other k).clients.Perm (other.clients ++ s.clients) := by
  simp only [WinStack.join]
  set p := if s.clients.isEmpty then 0
    else min (s.curIdx % s.clients.length + k) s.clients.length with hp
  have h1 : (s.clients.take p ++ other.clients ++ s.clients.drop p).Perm
      ((other.clients ++ s.clients.take p) ++ s.clients.drop p) :=
    (@List.perm_append_comm _ (s.clients.take p) other.clients).append_right _
  have h2 : (other.clients ++ s.clients.take p) ++ s.clients.drop p =
      other.clients ++ s.clients := by
    rw [List.append_assoc, List.take_append_drop]
  rwa [h2] at h1

theorem WinStack.cw_eq_none_iff (s : WinStack) : s.cw = none ↔ s.clients = [] := by
  constructor
  · intro h
    by_contra hne
    have hlen : 0 < s.clients.length := List.length_pos.mpr hne
    have hlt : s.curIdx % s.clients.length < s.clients.length := Nat.mod_lt _ hlen
    have : s.clients.isEmpty = false := by simpa [List.isEmpty_iff] using hne
    simp only [WinStack.cw, this, Bool.false_eq_true, if_false] at h
    rw [List.get?_eq_getElem?, List.getElem?_eq_getElem hlt] at h
    exact Option.noConfusion h
  · intro h
    simp [WinStack.cw, h]

theorem WinStack.cw_isSome_of_ne (s : WinStack) (h : s.clients ≠ []) : s.cw.isSome := by
  cases hcw : s.cw with
  | none => exact absurd ((WinStack.cw_eq_none_iff s).mp hcw) h
  | some w => rfl

theorem WinStack.cw_mem (s : WinStack) (w : Nat) (h : s.cw = some w) : w ∈ s.clients := by
  by_cases he : s.clients.isEmpty
  · simp [WinStack.cw, he] at h
  · simp only [WinStack.cw, he, Bool.false_eq_true, if_false] at h
    exact List.get?_mem h

theorem findIdxQ_some_lt {α : Type} (p : α → Bool) (ss : List α) (i : Nat)
    (h : ss.findIdx? p = some i) : i < ss.length := by
  induction ss generalizing i with
  | nil => simp at h
  | cons s ss ih =>
    rw [List.findIdx?_cons] at h
    by_cases hp : p s
    · simp [hp] at h
      simp [← h]
    · simp only [hp, Bool.false_eq_true, if_false, List.findIdx?_succ] at h
      cases hfi : ss.findIdx? p with
      | none => simp [hfi] at h
      | some j =>
        simp [hfi] at h
        have := ih j hfi
        simp only [List.length_cons]
        omega

theorem findIdxQ_some_getD {α : Type} (p : α → Bool) (ss : List α) (i : Nat) (d : α)
    (h : ss.findIdx? p = some i) : p (ss.getD i d) = true := by
  induction ss generalizing i with
  | nil => simp at h
  | cons s ss ih =>
    rw [List.findIdx?_cons] at h
    by_cases hp : p s
    · simp [hp] at h
      simp [← h, hp]
    · simp only [hp, Bool.false_eq_true, if_false, List.findIdx?_succ] at h
      cases hfi : ss.findIdx? p with
      | none => simp [hfi] at h
      | some j =>
        simp [hfi] at h
        cases i with
        | zero => simp at h
        | succ m =>
          have hm : m = j := by omega
          subst hm
          simpa [List.getD] using ih m hfi

theorem findIdxQ_some_before {α : Type} (p : α → Bool) (ss : List α) (i : Nat) (d : α)
    (h : ss.findIdx? p = some i) : ∀ j, j < i → p (ss.getD j d) = false := by
  induction ss generalizing i with
  | nil => simp at h
  | cons s ss ih =>
    rw [List.findIdx?_cons] at h
    by_cases hp : p s
    · simp [hp] at h
      intro j hj
      omega
    · simp only [hp, Bool.false_eq_true, if_false, List.findIdx?_succ] at h
      cases hfi : ss.findIdx? p with
      | none => simp [hfi] at h
      | some k =>
        simp [hfi] at h
        intro j hj
        cases j with
        | zero => simpa [List.getD] using (Bool.not_eq_true _).mp hp
        | succ m =>
          cases i with
          | zero => omega
          | succ n =>
            have hn : n = k := by omega
            subst hn
            simpa [List.getD] using ih n hfi m (by omega)

theorem findIdxQ_none_all {α : Type} (p : α → Bool) (ss : List α)
    (h : ss.findIdx? p = none) : ∀ s ∈ ss, p s = false := by
  induction ss with
  | nil => intro s hs; simp at hs
  | cons s ss ih =>
    rw [List.findIdx?_cons] at h
    by_cases hp : p s
    · simp [hp] at h
    · simp only [hp, Bool.false_eq_true, if_false, List.findIdx?_succ] at h
      cases hfi : ss.findIdx? p with
      | none =>
        intro t ht
        rcases List.mem_cons.mp ht with rfl | ht
        · exact (Bool.not_eq_true _).mp hp
        · exact ih hfi t ht
      | some j => simp [hfi] at h

theorem findIdxQ_some_of {α : Type} (p : α → Bool) (ss : List α) (i : Nat) (d : α)
    (hi : i < ss.length) (hp : p (ss.getD i d) = true)
    (hb : ∀ j, j < i → p (ss.getD j d) = false) : ss.findIdx? p = some i := by
  induction ss generalizing i with
  | nil => simp at hi
  | cons s ss ih =>
    rw [List.findIdx?_cons]
    cases i with
    | zero => simpa [List.getD] using hp
    | succ n =>
      have h0 : p s = false := by simpa [List.getD] using hb 0 (Nat.zero_lt_succ n)
      have hrec : ss.findIdx? p = some n := by
        refine ih n (Nat.lt_of_succ_lt_succ hi) (by simpa [List.getD] using hp) ?_
        intro j hj
        simpa [List.getD] using hb (j + 1) (Nat.succ_lt_succ hj)
      simp [h0, List.findIdx?_succ, hrec]

theorem joinClients_modifyIdx_perm (ss : List WinStack) (i : Nat)
    (f : WinStack → WinStack) (d : WinStack) (ex : List Nat) (hi : i < ss.length)
    (hf : (f (ss.getD i d)).clients.Perm (ex ++ (ss.getD i d).clients)) :
    (joinClients (modifyIdx ss i f)).Perm (ex ++ joinClients ss) := by
  induction ss generalizing i with
  | nil => simp at hi
  | cons s ss ih =>
    cases i with
    | zero =>
      simp only [modifyIdx, joinClients_cons]
      simp only [List.getD_cons_zero] at hf
      have := hf.append_right (joinClients ss)
      simpa [List.append_assoc] using this
    | succ n =>
      have hn : n < ss.length := Nat.lt_of_succ_lt_succ hi
      simp only [List.getD_cons_succ] at hf
      have hrec := ih n hn hf
      simp only [modifyIdx, joinClients_cons]
      have h1 : (s.clients ++ joinClients (modifyIdx ss n f)).Perm
          (s.clients ++ (ex ++ joinClients ss)) := hrec.append_left s.clients
      have h2 : (s.clients ++ (ex ++ joinClients ss)).Perm
          (ex ++ (s.clients ++ joinClients ss)) := by
        have := (@List.perm_append_comm _ s.clients ex).append_right
          (joinClients ss)
        simpa [List.append_assoc] using this
      exact h1.trans h2

theorem joinClients_modifyIdx_sublist (ss : List WinStack) (i : Nat)
    (f : WinStack → WinStack) (hf : ∀ t, (f t).clients.Sublist t.clients) :
    (joinClients (modifyIdx ss i f)).Sublist (joinClients ss) := by
  induction ss generalizing i with
  | nil => simp [modifyIdx]
  | cons s ss ih =>
    cases i with
    | zero =>
      simp only [modifyIdx, joinClients_cons]
      exact (hf s).append (List.Sublist.refl _)
    | succ n =>
      simp only [modifyIdx, joinClients_cons]
      exact (List.Sublist.refl s.clients).append (ih n)

theorem joinClients_eraseIdx_perm (ss : List WinStack) (i : Nat) (d : WinStack)
    (hi : i < ss.length) :
    (joinClients ss).Perm ((ss.getD i d).clients ++ joinClients (ss.eraseIdx i)) := by
  induction ss generalizing i with
  | nil => simp at hi
  | cons s ss ih =>
    cases i with
    | zero => simp [joinClients_cons]
    | succ n =>
      have hn : n < ss.length := Nat.lt_of_succ_lt_succ hi
      simp only [List.eraseIdx_cons_succ, joinClients_cons, List.getD_cons_succ]
      have h1 := (ih n hn).append_left s.clients
      have h2 : (s.clients ++ ((ss.getD n d).clients ++ joinClients (ss.eraseIdx n))).Perm
          ((ss.getD n d).clients ++ (s.clients ++ joinClients (ss.eraseIdx n))) := by
        have := (@List.perm_append_comm _ s.clients
          (ss.getD n d).clients).append_right (joinClients (ss.eraseIdx n))
        simpa [List.append_assoc] using this
      exact h1.trans h2

theorem fairIdx_lt (ss : List WinStack) (h : ss ≠ []) : StackLayout.fairIdx ss < ss.length := by
  induction ss with
  | nil => exact absurd rfl h
  | cons s ss ih =>
    cases ss with
    | nil => simp [StackLayout.fairIdx]
    | cons t rest =>
      simp only [StackLayout.fairIdx]
      by_cases hc : ((t :: rest).getD (StackLayout.fairIdx (t :: rest)) default).clients.length <
          s.clients.length
      · simp only [hc, if_true, List.length_cons]
        exact Nat.succ_lt_succ (ih (by simp))
      · simp only [hc, if_false, List.length_cons]
        exact Nat.zero_lt_succ _

theorem getD_irrel (ss : List WinStack) (i : Nat) (d e : WinStack)
    (h : i < ss.length) : ss.getD i d = ss.getD i e := by
  rw [List.getD_eq_getElem?_getD, List.getD_eq_getElem?_getD, List.getElem?_eq_getElem h]
  rfl

theorem fairIdx_min (ss : List WinStack) (d : WinStack) :
    ∀ k, k < ss.length →
      (ss.getD (StackLayout.fairIdx ss) d).clients.length ≤ (ss.getD k d).clients.length := by
  induction ss with
  | nil => intro k hk; simp at hk
  | cons s ss ih =>
    intro k hk
    cases ss with
    | nil =>
      cases k with
      | zero => simp [StackLayout.fairIdx]
      | succ m => simp at hk
    | cons t rest =>
      simp only [StackLayout.fairIdx]
      have hlt : StackLayout.fairIdx (t :: rest) < (t :: rest).length := fairIdx_lt _ (by simp)
      have hdd : (t :: rest).getD (StackLayout.fairIdx (t :: rest)) default =
          (t :: rest).getD (StackLayout.fairIdx (t :: rest)) d := getD_irrel _ _ _ _ hlt
      by_cases hc : ((t :: rest).getD (StackLayout.fairIdx (t :: rest)) default).clients.length <
          s.clients.length
      · simp only [hc, if_true, List.getD_cons_succ]
        cases k with
        | zero =>
          simp only [List.getD_cons_zero]
          rw [hdd] at hc
          exact Nat.le_of_lt hc
        | succ m =>
          simp only [List.getD_cons_succ]
          exact ih m (Nat.lt_of_succ_lt_succ hk)
      · simp only [hc, if_false, List.getD_cons_zero]
        cases k with
        | zero => simp
        | succ m =>
          simp only [List.getD_cons_succ]
          have hle : s.clients.length ≤
              ((t :: rest).getD (StackLayout.fairIdx (t :: rest)) d).clients.length := by
            rw [← hdd]; omega
          exact hle.trans (ih m (Nat.lt_of_succ_lt_succ hk))

theorem fairIdx_first (ss : List WinStack) (d : WinStack) :
    ∀ k, k < StackLayout.fairIdx ss →
      (ss.getD (StackLayout.fairIdx ss) d).clients.length < (ss.getD k d).clients.length := by
  induction ss with
  | nil => intro k hk; simp [StackLayout.fairIdx] at hk
  | cons s ss ih =>
    intro k hk
    cases ss with
    | nil => simp [StackLayout.fairIdx] at hk
    | cons t rest =>
      simp only [StackLayout.fairIdx] at hk ⊢
      have hlt : StackLayout.fairIdx (t :: rest) < (t :: rest).length := fairIdx_lt _ (by simp)
      have hdd : (t :: rest).getD (StackLayout.fairIdx (t :: rest)) default =
          (t :: rest).getD (StackLayout.fairIdx (t :: rest)) d := getD_irrel _ _ _ _ hlt
      by_cases hc : ((t :: rest).getD (StackLayout.fairIdx (t :: rest)) default).clients.length <
          s.clients.length
      · simp only [hc, if_true] at hk ⊢
        simp only [List.getD_cons_succ]
        cases k with
        | zero =>
          simp only [List.getD_cons_zero]
          rw [hdd] at hc
          exact hc
        | succ m =>
          simp only [List.getD_cons_succ]
          exact ih m (Nat.lt_of_succ_lt_succ hk)
      · simp only [hc, if_false] at hk
        omega

theorem StackLayout.cso_lt (l : StackLayout) (gw : Option Nat)
    (h : l.stackList ≠ []) : l.currentStackOffset gw < l.stackList.length := by
  have hpos : 0 < l.stackList.length := List.length_pos.mpr h
  cases gw with
  | none => exact hpos
  | some w =>
    cases hfi : l.stackList.findIdx? (fun s => s.clients.contains w) with
    | none =>
      have he : l.currentStackOffset (some w) = 0 := by
        simp only [StackLayout.currentStackOffset, hfi]
      rw [he]; exact hpos
    | some i =>
      have he : l.currentStackOffset (some w) = i := by
        simp only [StackLayout.currentStackOffset, hfi]
      rw [he]; exact findIdxQ_some_lt _ _ _ hfi

theorem nodup_modify_insert (ss : List WinStack) (i : Nat) (f : WinStack → WinStack)
    (c : Nat) (hf : ∀ t, (f t).clients.Perm (c :: t.clients))
    (hn : (joinClients ss).Nodup) (hc : c ∉ joinClients ss) :
    (joinClients (modifyIdx ss i f)).Nodup := by
  by_cases hi : i < ss.length
  · have hperm := joinClients_modifyIdx_perm ss i f default [c] hi
      (by simpa using hf (ss.getD i default))
    have : ([c] ++ joinClients ss).Nodup := by
      simpa using List.nodup_cons.mpr ⟨hc, hn⟩
    exact hperm.nodup_iff.mpr this
  · rwa [modifyIdx_of_ge ss i f (Nat.le_of_not_lt hi)]

theorem nodup_modify_sublist (ss : List WinStack) (i : Nat) (f : WinStack → WinStack)
    (hf : ∀ t, (f t).clients.Sublist t.clients) (hn : (joinClients ss).Nodup) :
    (joinClients (modifyIdx ss i f)).Nodup :=
  (joinClients_modifyIdx_sublist ss i f hf).nodup hn

theorem remove_modify_nodup_notmem (ss : List WinStack) (co win : Nat) (d : WinStack)
    (hco : co < ss.length) (hwin : win ∈ (ss.getD co d).clients)
    (hn : (joinClients ss).Nodup) :
    (joinClients (modifyIdx ss co (fun s => s.remove win))).Nodup ∧
      win ∉ joinClients (modifyIdx ss co (fun s => s.remove win)) := by
  have hJ : joinClients ss = joinClients (ss.take co) ++
      ((ss.getD co d).clients ++ joinClients (ss.drop (co + 1))) := by
    conv_lhs => rw [list_decomp ss co d hco]
    simp [joinClients_append, joinClients_cons]
  have hJ1 : joinClients (modifyIdx ss co (fun s => s.remove win)) =
      joinClients (ss.take co) ++
        ((ss.getD co d).clients.erase win ++ joinClients (ss.drop (co + 1))) := by
    rw [modifyIdx_decomp ss co _ d hco]
    simp [joinClients_append, joinClients_cons, WinStack.remove_clients]
  rw [hJ] at hn
  rw [hJ1]
  obtain ⟨hnA, hnrest, hdisjA⟩ := List.nodup_append.mp hn
  obtain ⟨hncur, hnB, hdisjcurB⟩ := List.nodup_append.mp hnrest
  constructor
  · refine List.nodup_append.mpr ⟨hnA, List.nodup_append.mpr ⟨hncur.erase _, hnB, ?_⟩, ?_⟩
    · intro a ha hb
      exact hdisjcurB (List.mem_of_mem_erase ha) hb
    · intro a ha hb
      rcases List.mem_append.mp hb with h1 | h1
      · exact hdisjA ha (List.mem_append.mpr (Or.inl (List.mem_of_mem_erase h1)))
      · exact hdisjA ha (List.mem_append.mpr (Or.inr h1))
  · intro hmem
    rcases List.mem_append.mp hmem with h1 | h1
    · exact hdisjA h1 (List.mem_append.mpr (Or.inl hwin))
    · rcases List.mem_append.mp h1 with h2 | h2
      · exact ((hncur.mem_erase_iff).mp h2).1 rfl
      · exact hdisjcurB hwin h2

theorem rotate_stackList_perm (l : StackLayout) :
    (StackLayout.rotate l).stackList.Perm l.stackList := by
  unfold StackLayout.rotate
  by_cases h : l.stackList.isEmpty
  · simp [h]
  · simp only [h, Bool.false_eq_true, if_false]
    have hne : l.stackList ≠ [] := by simpa [List.isEmpty_iff] using h
    have hlast : l.stackList.getLast? = some (l.stackList.getLast hne) :=
      List.getLast?_eq_getLast _ hne
    rw [hlast]
    have : (l.stackList.getLast hne :: l.stackList.dropLast).Perm
        (l.stackList.dropLast ++ [l.stackList.getLast hne]) := by
      simpa using (@List.perm_append_comm _
        [l.stackList.getLast hne] l.stackList.dropLast)
    simpa [List.dropLast_append_getLast hne] using this

theorem WinStack.addClient_focus_cw (s : WinStack) (c : Nat) :
    ((s.addClient c).focus c).cw = some c := by
  have hmem : c ∈ (s.addClient c).clients :=
    (s.addClient_clients_perm c).mem_iff.mpr (List.mem_cons_self c _)
  have hcont : (s.addClient c).clients.contains c := by simpa using hmem
  have hlt : (s.addClient c).clients.indexOf c < (s.addClient c).clients.length :=
    List.indexOf_lt_length.mpr hmem
  have hne : (s.addClient c).clients ≠ [] := List.ne_nil_of_length_pos (Nat.lt_of_le_of_lt (Nat.zero_le _) hlt)
  have hemp : (s.addClient c).clients.isEmpty = false := by simpa [List.isEmpty_iff] using hne
  simp only [WinStack.focus, hcont, if_true, WinStack.cw, hemp, Bool.false_eq_true, if_false]
  rw [Nat.mod_eq_of_lt hlt, List.get?_eq_getElem?, List.getElem?_eq_getElem hlt]
  exact congrArg some (List.getElem_indexOf hlt)

theorem joinClients_replicate_empty (n : Nat) (a : Bool) :
    joinClients (List.replicate n ⟨[], 0, a⟩) = [] := by
  induction n with
  | zero => rfl
  | succ m ih => simpa [joinClients_cons] using ih

theorem addClient_nodup (l : StackLayout) (gw : Option Nat) (c : Nat)
    (hn : (joinClients l.stackList).Nodup) (hc : c ∉ joinClients l.stackList) :
    (joinClients (l.addClient gw c).stackList).Nodup := by
  have hf : ∀ t : WinStack, (t.addClient c).clients.Perm (c :: t.clients) :=
    fun t => t.addClient_clients_perm c
  unfold StackLayout.addClient
  cases hfi : l.stackList.findIdx? (fun s => s.clients.isEmpty) with
  | some i => exact nodup_modify_insert _ _ _ _ hf hn hc
  | none =>
    by_cases hfair : l.cfg.fair
    · simp only [hfair, if_true]
      exact nodup_modify_insert _ _ _ _ hf hn hc
    · simp only [hfair, Bool.false_eq_true, if_false]
      exact nodup_modify_insert _ _ _ _ hf hn hc

theorem removeClient_nodup (l : StackLayout) (gw : Option Nat) (c : Nat)
    (hn : (joinClients l.stackList).Nodup) :
    (joinClients (l.removeClient gw c).1.stackList).Nodup := by
  have hf : ∀ t : WinStack, (t.remove c).clients.Sublist t.clients := by
    intro t
    rw [WinStack.remove_clients]
    exact List.erase_sublist _ _
  unfold StackLayout.removeClient
  cases hfi : l.stackList.findIdx? (fun s => s.clients.contains c) with
  | some i =>
    simpa using nodup_modify_sublist _ i _ hf hn
  | none => simpa using hn

theorem deleteCurrentStack_join_perm (l : StackLayout) (gw : Option Nat)
    (h : 1 < l.stackList.length) :
    (joinClients (l.deleteCurrentStack gw).stackList).Perm (joinClients l.stackList) := by
  have hne : l.stackList ≠ [] := by
    intro hnil; rw [hnil] at h; simp at h
  have hco : l.currentStackOffset gw < l.stackList.length := l.cso_lt gw hne
  unfold StackLayout.deleteCurrentStack
  simp only [h, if_true]
  set co := l.currentStackOffset gw with hcodef
  set s := l.stackList.getD co default with hsdef
  set ss' := l.stackList.eraseIdx co with hss'
  have hlen' : ss'.length = l.stackList.length - 1 := by
    rw [hss']
    exact List.length_eraseIdx_of_lt hco
  have hpos' : 0 < ss'.length := by omega
  have hoff : min co (ss'.length - 1) < ss'.length := by omega
  have h1 : (joinClients (modifyIdx ss' (min co (ss'.length - 1))
      (fun t => t.join s 1))).Perm (s.clients ++ joinClients ss') :=
    joinClients_modifyIdx_perm ss' _ _ default s.clients hoff
      (WinStack.join_clients_perm _ s 1)
  have h2 : (joinClients l.stackList).Perm (s.clients ++ joinClients ss') :=
    joinClients_eraseIdx_perm l.stackList co default hco
  exact h1.trans h2.symm

theorem clientToStack_nodup (l : StackLayout) (gw : Option Nat) (n : Int)
    (hn : (joinClients l.stackList).Nodup) :
    (joinClients (l.clientToStack gw n).stackList).Nodup := by
  simp only [StackLayout.clientToStack]
  split
  next he => exact hn
  next he =>
    split
    next => exact hn
    next win hcw =>
      have hne : l.stackList ≠ [] := by
        intro hnil
        apply he
        rw [hnil]
        rfl
      have hco : l.currentStackOffset gw < l.stackList.length := l.cso_lt gw hne
      have hwin : win ∈ (l.stackList.getD (l.currentStackOffset gw) default).clients :=
        WinStack.cw_mem _ _ hcw
      obtain ⟨hn1, hm1⟩ := remove_modify_nodup_notmem l.stackList
        (l.currentStackOffset gw) win default hco hwin hn
      exact nodup_modify_insert _ _ _ win
        (fun t => by
          have h1 : ((t.addClient win).focus win).clients = (t.addClient win).clients :=
            WinStack.focus_clients _ _
          rw [h1]
          exact t.addClient_clients_perm win)
        hn1 hm1

theorem addClient_length (l : StackLayout) (gw : Option Nat) (c : Nat) :
    (l.addClient gw c).stackList.length = l.stackList.length := by
  unfold StackLayout.addClient
  cases hfi : l.stackList.findIdx? (fun s => s.clients.isEmpty) with
  | some i => simp [modifyIdx_length]
  | none =>
    by_cases hfair : l.cfg.fair <;> simp [hfair, modifyIdx_length]

theorem removeClient_length (l : StackLayout) (gw : Option Nat) (c : Nat) :
    (l.removeClient gw c).1.stackList.length = l.stackList.length := by
  unfold StackLayout.removeClient
  cases hfi : l.stackList.findIdx? (fun s => s.clients.contains c) with
  | some i => simp [modifyIdx_length]
  | none => simp

theorem deleteCurrentStack_length (l : StackLayout) (gw : Option Nat) :
    (l.deleteCurrentStack gw).stackList.length =
      if 1 < l.stackList.length then l.stackList.length - 1 else l.stackList.length := by
  unfold StackLayout.deleteCurrentStack
  by_cases h : 1 < l.stackList.length
  · have hne : l.stackList ≠ [] := by
      intro hnil; rw [hnil] at h; simp at h
    have hco : l.currentStackOffset gw < l.stackList.length := l.cso_lt gw hne
    simp only [h, if_true, modifyIdx_length]
    exact List.length_eraseIdx_of_lt hco
  · simp [h]

theorem clientToStack_length (l : StackLayout) (gw : Option Nat) (n : Int) :
    (l.clientToStack gw n).stackList.length = l.stackList.length := by
  simp only [StackLayout.clientToStack]
  split
  next => rfl
  next =>
    split
    next => rfl
    next win hcw => simp [modifyIdx_length]

theorem rotate_length (l : StackLayout) :
    (StackLayout.rotate l).stackList.length = l.stackList.length := by
  by_cases h : l.stackList.isEmpty
  · simp [StackLayout.rotate, h]
  · exact (rotate_stackList_perm l).length_eq

theorem addStack_length (l : StackLayout) :
    (StackLayout.addStack l).stackList.length = l.stackList.length + 1 := by
  simp [StackLayout.addStack]

theorem rotate_nodup (l : StackLayout)
    (hn : (joinClients l.stackList).Nodup) :
    (joinClients (StackLayout.rotate l).stackList).Nodup :=
  ((joinClients_perm_of_perm (rotate_stackList_perm l)).nodup_iff).mpr hn

theorem addStack_joinClients (l : StackLayout) :
    joinClients (StackLayout.addStack l).stackList = joinClients l.stackList := by
  simp [StackLayout.addStack, joinClients_append, joinClients_cons, joinClients_nil]

theorem applyOp_nodup (l : StackLayout) (op : StackOp)
    (hn : (joinClients l.stackList).Nodup) (hv : ValidOp l op) :
    (joinClients (applyOp l op).stackList).Nodup := by
  cases op with
  | addClient gw c =>
    have hc : c ∉ joinClients l.stackList := by
      have := hv
      simp only [ValidOp] at this
      rwa [clients_eq_joinClients] at this
    exact addClient_nodup l gw c hn hc
  | remove gw c => exact removeClient_nodup l gw c hn
  | deleteCurrent gw =>
    by_cases h : 1 < l.stackList.length
    · exact ((deleteCurrentStack_join_perm l gw h).nodup_iff).mpr hn
    · have : l.deleteCurrentStack gw = l := by
        unfold StackLayout.deleteCurrentStack
        simp [h]
      simpa [applyOp, this] using hn
  | clientToStack gw n => exact clientToStack_nodup l gw n hn
  | rotate => exact rotate_nodup l hn
  | addStack => simpa [applyOp, addStack_joinClients] using hn

theorem applyOp_length_pos (l : StackLayout) (op : StackOp)
    (hl : 1 ≤ l.stackList.length) : 1 ≤ (applyOp l op).stackList.length := by
  cases op with
  | addClient gw c => simpa [applyOp, addClient_length] using hl
  | remove gw c => simpa [applyOp, removeClient_length] using hl
  | deleteCurrent gw =>
    simp only [applyOp]
    rw [deleteCurrentStack_length]
    by_cases h : 1 < l.stackList.length
    · simp only [h, if_true]
      omega
    · simp only [h, if_false]
      omega
  | clientToStack gw n => simpa [applyOp, clientToStack_length] using hl
  | rotate => simpa [applyOp, rotate_length] using hl
  | addStack =>
    have := addStack_length l
    simp only [applyOp]
    omega

theorem reachable_nodup (l : StackLayout) (h : Reachable l) :
    (joinClients l.stackList).Nodup := by
  induction h with
  | init cfg l h =>
    unfold StackLayout.init at h
    split at h
    · exact absurd h (by simp)
    · simp only [Except.ok.injEq] at h
      subst h
      simp [joinClients_replicate_empty]
  | step l op hr hv ih => exact applyOp_nodup l op ih hv

theorem reachable_length_pos (l : StackLayout) (h : Reachable l) :
    1 ≤ l.stackList.length := by
  induction h with
  | init cfg l h =>
    unfold StackLayout.init at h
    split at h
    · exact absurd h (by simp)
    · next hnum =>
      simp only [Except.ok.injEq] at h
      subst h
      simp only [List.length_replicate]
      omega
  | step l op hr hv ih => exact applyOp_length_pos l op ih

/-! ## Claim theorems -/

/-- C1: In every reachable engine state (construction followed by any sequence
of valid operations), the aggregate client list equals the concatenation of
the stacks' member lists, and no client handle appears twice in that
concatenation (hence in no two stacks and never twice in one stack). -/
theorem stack_engine_aggregate_partition (l : StackLayout) (h : Reachable l) :
    l.clients = joinClients l.stackList ∧ l.clients.Nodup := by
  refine ⟨clients_eq_joinClients l, ?_⟩
  rw [clients_eq_joinClients]
  exact reachable_nodup l h

/-- Witness for C1 at a concrete reachable state. -/
theorem stack_engine_aggregate_partition_witness :
    (applyOp ⟨{}, List.replicate 2 ⟨[], 0, false⟩⟩ (StackOp.addClient none 5)).clients =
        joinClients (applyOp ⟨{}, List.replicate 2 ⟨[], 0, false⟩⟩
          (StackOp.addClient none 5)).stackList ∧
      (applyOp ⟨{}, List.replicate 2 ⟨[], 0, false⟩⟩ (StackOp.addClient none 5)).clients.Nodup :=
  stack_engine_aggregate_partition _
    (Reachable.step _ _ (Reachable.init {} _ rfl)
      (show (5 : Nat) ∉
          (⟨{}, List.replicate 2 ⟨[], 0, false⟩⟩ : StackLayout).clients by decide))

/-- C2: construction with `num_stacks <= 0` always fails with the
configuration error; with `num_stacks >= 1` it succeeds with exactly that many
empty stacks; every reachable state has at least one stack; and
`delete_current_stack` with a single stack is a no-op. -/
theorem stack_count_always_positive :
    (∀ cfg : StackConfig, cfg.num_stacks ≤ 0 →
        StackLayout.init cfg = Except.error "num_stacks must be at least 1") ∧
    (∀ cfg : StackConfig, 1 ≤ cfg.num_stacks →
        ∃ l : StackLayout, StackLayout.init cfg = Except.ok l ∧
          (l.stackList.length : Int) = cfg.num_stacks ∧
          ∀ s ∈ l.stackList, s.clients = []) ∧
    (∀ l : StackLayout, Reachable l → 1 ≤ l.stackList.length) ∧
    (∀ (l : StackLayout) (gw : Option Nat), l.stackList.length = 1 →
        l.deleteCurrentStack gw = l) := by
  refine ⟨?_, ?_, ?_, ?_⟩
  · intro cfg h
    unfold StackLayout.init
    simp [h]
  · intro cfg h
    have hne : ¬cfg.num_stacks ≤ 0 := by omega
    refine ⟨⟨cfg, List.replicate cfg.num_stacks.toNat ⟨[], 0, cfg.autosplit⟩⟩, ?_, ?_, ?_⟩
    · unfold StackLayout.init
      simp [hne]
    · simp only [List.length_replicate]
      omega
    · intro s hs
      have := List.eq_of_mem_replicate hs
      rw [this]
  · exact reachable_length_pos
  · intro l gw h
    unfold StackLayout.deleteCurrentStack
    simp [h]

/-- Witness for C2 at concrete configurations and states. -/
theorem stack_count_always_positive_witness :
    StackLayout.init { num_stacks := 0 } =
        Except.error "num_stacks must be at least 1" ∧
      (∃ l : StackLayout, StackLayout.init { num_stacks := 3 } = Except.ok l ∧
        (l.stackList.length : Int) = (3 : Int) ∧ ∀ s ∈ l.stackList, s.clients = []) ∧
      1 ≤ (⟨{}, List.replicate 2 ⟨[], 0, false⟩⟩ : StackLayout).stackList.length ∧
      StackLayout.deleteCurrentStack ⟨{}, [⟨[1], 0, false⟩]⟩ none =
        ⟨{}, [⟨[1], 0, false⟩]⟩ :=
  ⟨stack_count_always_positive.1 { num_stacks := 0 } (by decide),
    stack_count_always_positive.2.1 { num_stacks := 3 } (by decide),
    stack_count_always_positive.2.2.1 _ (Reachable.init {} _ rfl),
    stack_count_always_positive.2.2.2 _ none (by decide)⟩

/-- C3: `add_client` inserts into the first empty stack when one exists;
otherwise, with `fair`, into the first stack of minimal size; otherwise into
the current stack; and with 2 stacks and `fair=True`, adding A,B,C,D in order
yields stack0 = [A,C] and stack1 = [B,D]. -/
theorem add_client_placement_policy :
    (∀ (l : StackLayout) (gw : Option Nat) (c : Nat) (j : Nat),
      j < l.stackList.length → (l.stackList.getD j default).clients = [] →
      (∀ k, k < j → (l.stackList.getD k default).clients ≠ []) →
      l.addClient gw c =
        { l with stackList := modifyIdx l.stackList j (fun s => s.addClient c) }) ∧
    (∀ (l : StackLayout) (gw : Option Nat) (c : Nat) (j : Nat),
      l.cfg.fair = true → (∀ s ∈ l.stackList, s.clients ≠ []) →
      j < l.stackList.length →
      (∀ k, k < l.stackList.length →
        (l.stackList.getD j default).clients.length ≤
          (l.stackList.getD k default).clients.length) →
      (∀ k, k < j →
        (l.stackList.getD j default).clients.length <
          (l.stackList.getD k default).clients.length) →
      l.addClient gw c =
        { l with stackList := modifyIdx l.stackList j (fun s => s.addClient c) }) ∧
    (∀ (l : StackLayout) (gw : Option Nat) (c : Nat),
      l.cfg.fair = false → (∀ s ∈ l.stackList, s.clients ≠ []) →
      l.addClient gw c =
        { l with stackList :=
            (modifyIdx l.stackList (l.currentStackOffset gw) (fun s => s.addClient c)) }) ∧
    ((((StackLayout.addClient ⟨{ fair := true }, List.replicate 2 ⟨[], 0, false⟩⟩
          none 1).addClient (some 1) 2).addClient (some 2) 3).addClient (some 3) 4
      |>.stackList.map WinStack.clients) = [[1, 3], [2, 4]] := by
  refine ⟨?_, ?_, ?_, by decide⟩
  · intro l gw c j hj hjE hbefore
    have hfi : l.stackList.findIdx? (fun s => s.clients.isEmpty) = some j := by
      refine findIdxQ_some_of _ _ _ default hj (by simpa [List.isEmpty_iff] using hjE) ?_
      intro k hk
      simpa [List.isEmpty_iff] using hbefore k hk
    unfold StackLayout.addClient
    rw [hfi]
  · intro l gw c j hfair hall hj hmin hfirst
    have hfi : l.stackList.findIdx? (fun s => s.clients.isEmpty) = none := by
      by_contra hne
      obtain ⟨i, hfi⟩ := Option.ne_none_iff_exists'.mp hne
      have hi : i < l.stackList.length := findIdxQ_some_lt _ _ _ hfi
      have hp := findIdxQ_some_getD _ _ i default hfi
      have hmem : l.stackList.getD i default ∈ l.stackList := by
        rw [List.getD_eq_getElem _ _ hi]
        exact List.getElem_mem _
      exact hall _ hmem (by simpa [List.isEmpty_iff] using hp)
    have hne : l.stackList ≠ [] := by
      intro hnil
      rw [hnil] at hj
      simp at hj
    have hjeq : j = StackLayout.fairIdx l.stackList := by
      by_contra hneq
      rcases Nat.lt_or_ge j (StackLayout.fairIdx l.stackList) with hlt | hge
      · have h1 := fairIdx_first l.stackList default j hlt
        have h2 := hmin (StackLayout.fairIdx l.stackList) (fairIdx_lt _ hne)
        omega
      · have hlt : StackLayout.fairIdx l.stackList < j := by
          rcases Nat.lt_or_ge (StackLayout.fairIdx l.stackList) j with h | h
          · exact h
          · omega
        have h1 := hfirst (StackLayout.fairIdx l.stackList) hlt
        have h2 := fairIdx_min l.stackList default j hj
        omega
    unfold StackLayout.addClient
    rw [hfi]
    simp only [hfair, if_true, hjeq]
  · intro l gw c hfair hall
    have hfi : l.stackList.findIdx? (fun s => s.clients.isEmpty) = none := by
      by_contra hne
      obtain ⟨i, hfi⟩ := Option.ne_none_iff_exists'.mp hne
      have hi : i < l.stackList.length := findIdxQ_some_lt _ _ _ hfi
      have hp := findIdxQ_some_getD _ _ i default hfi
      have hmem : l.stackList.getD i default ∈ l.stackList := by
        rw [List.getD_eq_getElem _ _ hi]
        exact List.getElem_mem _
      exact hall _ hmem (by simpa [List.isEmpty_iff] using hp)
    unfold StackLayout.addClient
    rw [hfi]
    simp only [hfair, Bool.false_eq_true, if_false]

/-- Witness for C3 at concrete engine states for each branch of the policy. -/
theorem add_client_placement_policy_witness :
    (StackLayout.addClient ⟨{}, [⟨[9], 0, false⟩, ⟨[], 0, false⟩]⟩ none 7 =
      ⟨{}, modifyIdx [⟨[9], 0, false⟩, ⟨[], 0, false⟩] 1 (fun s => s.addClient 7)⟩) ∧
    (StackLayout.addClient ⟨{ fair := true }, [⟨[1, 2], 0, false⟩, ⟨[3], 0, false⟩]⟩
        none 7 =
      ⟨{ fair := true },
        modifyIdx [⟨[1, 2], 0, false⟩, ⟨[3], 0, false⟩] 1 (fun s => s.addClient 7)⟩) ∧
    (StackLayout.addClient ⟨{}, [⟨[1], 0, false⟩, ⟨[3], 0, false⟩]⟩ (some 3) 7 =
      ⟨{}, modifyIdx [⟨[1], 0, false⟩, ⟨[3], 0, false⟩]
        (StackLayout.currentStackOffset ⟨{}, [⟨[1], 0, false⟩, ⟨[3], 0, false⟩]⟩ (some 3))
        (fun s => s.addClient 7)⟩) :=
  ⟨add_client_placement_policy.1 _ none 7 1 (by decide) (by decide) (by decide),
    add_client_placement_policy.2.1 _ none 7 1 (by decide) (by decide) (by decide)
      (by decide) (by decide),
    add_client_placement_policy.2.2.1 _ (some 3) 7 (by decide) (by decide)⟩

/-- C4 counterexample: with `num_stacks=2`, `fair=False`, adding clients
1,2,3,4 in order (focus following each added client) does NOT give
stacks = [[1,2,3,4],[]]: the second client lands in the empty stack 1. -/
theorem add_client_unfair_counterexample :
    ((((StackLayout.addClient ⟨{}, List.replicate 2 ⟨[], 0, false⟩⟩ none 1).addClient
          (some 1) 2).addClient (some 2) 3).addClient (some 3) 4
        |>.stackList.map WinStack.clients) = [[1], [2, 3, 4]] ∧
      ¬((((StackLayout.addClient ⟨{}, List.replicate 2 ⟨[], 0, false⟩⟩ none 1).addClient
          (some 1) 2).addClient (some 2) 3).addClient (some 3) 4
        |>.stackList.map WinStack.clients) = [[1, 2, 3, 4], []] := by
  constructor
  · rfl
  · decide

/-- C4 amended: with `num_stacks=2` and `fair=False`, the first two clients
fill the two empty stacks (1 into stack 0, then 2 into the still-empty stack
1, whatever the focus state); with focus following each newly added client,
clients 3 and 4 land in the current stack 1, giving stacks = [[1],[2,3,4]]. -/
theorem add_client_unfair_amended :
    (∀ gw : Option Nat,
      ((StackLayout.addClient ⟨{}, List.replicate 2 ⟨[], 0, false⟩⟩ none 1).addClient gw 2
        |>.stackList.map WinStack.clients) = [[1], [2]]) ∧
    ((((StackLayout.addClient ⟨{}, List.replicate 2 ⟨[], 0, false⟩⟩ none 1).addClient
          (some 1) 2).addClient (some 2) 3).addClient (some 3) 4
        |>.stackList.map WinStack.clients) = [[1], [2, 3, 4]] := by
  constructor
  · intro gw
    rfl
  · rfl

theorem findNext_reverse_eq (ss : List WinStack) (co : Nat) (hco : co < ss.length) :
    StackLayout.findNext ss.reverse (ss.length - co - 1) =
      ((ss.take co).reverse ++ (ss.drop (co + 1)).reverse).find?
        (fun s => !s.clients.isEmpty) := by
  unfold StackLayout.findNext
  have h1 : ss.length - co - 1 + 1 = ss.length - co := by omega
  rw [h1, List.drop_reverse, List.take_reverse]
  have h2 : ss.length - (ss.length - co) = co := by omega
  have h3 : ss.length - (ss.length - co - 1) = co + 1 := by omega
  rw [h2, h3, List.find?_append]

theorem removeClient_fst_stackList (l : StackLayout) (gw : Option Nat) (c : Nat) :
    (l.removeClient gw c).1.stackList =
      match l.stackList.findIdx? (fun s => s.clients.contains c) with
      | some i => modifyIdx l.stackList i (fun s => s.remove c)
      | none => l.stackList := rfl

theorem removeClient_snd_eq (l : StackLayout) (gw : Option Nat) (c : Nat) :
    (l.removeClient gw c).2 =
      match ((l.removeClient gw c).1.stackList.getD (l.currentStackOffset gw)
          default).cw with
      | some w => some w
      | none =>
        (StackLayout.findNext (l.removeClient gw c).1.stackList.reverse
          ((l.removeClient gw c).1.stackList.length -
            l.currentStackOffset gw - 1)).bind WinStack.cw := rfl

/-- C5 counterexample: state [[1],[2],[3]] with current window 2; removing 2
returns the current client of stack 0 (the search runs over the reversed
sequence, visiting stacks before the offset first), not stack 2's client as
an after-the-offset-first search would. -/
theorem remove_focus_target_counterexample :
    (StackLayout.removeClient
        ⟨{}, [⟨[1], 0, false⟩, ⟨[2], 0, false⟩, ⟨[3], 0, false⟩]⟩ (some 2) 2).2 =
      some 1 ∧
    ¬(StackLayout.removeClient
        ⟨{}, [⟨[1], 0, false⟩, ⟨[2], 0, false⟩, ⟨[3], 0, false⟩]⟩ (some 2) 2).2 =
      some 3 := by
  constructor
  · rfl
  · decide

/-- C5 amended: `remove(client)` removes the client from the first stack
containing it (membership no-op when absent), preserves the stack count, and
returns the current client of the stack at the pre-removal current offset if
that stack is non-empty; otherwise the current client of the first non-empty
stack in the wraparound order that visits the stacks before the offset in
reverse order (nearest first), then the stacks after the offset in reverse
order (last stack first), never the offset stack itself; `none` when all
stacks are empty. -/
theorem remove_focus_target (l : StackLayout) (gw : Option Nat) (c : Nat)
    (hne : l.stackList ≠ []) :
    (∀ i, i < l.stackList.length →
      c ∈ (l.stackList.getD i default).clients →
      (∀ k, k < i → c ∉ (l.stackList.getD k default).clients) →
      ((l.removeClient gw c).1.stackList.getD i default).clients =
          (l.stackList.getD i default).clients.erase c ∧
        ∀ j, j ≠ i →
          (l.removeClient gw c).1.stackList.getD j default =
            l.stackList.getD j default) ∧
    ((∀ s ∈ l.stackList, c ∉ s.clients) → (l.removeClient gw c).1 = l) ∧
    (l.removeClient gw c).1.stackList.length = l.stackList.length ∧
    ((l.removeClient gw c).2 =
      match ((l.removeClient gw c).1.stackList.getD (l.currentStackOffset gw)
          default).cw with
      | some w => some w
      | none =>
        ((((l.removeClient gw c).1.stackList.take (l.currentStackOffset gw)).reverse ++
            ((l.removeClient gw c).1.stackList.drop
              (l.currentStackOffset gw + 1)).reverse).find?
          (fun s => !s.clients.isEmpty)).bind WinStack.cw) ∧
    ((∀ s ∈ (l.removeClient gw c).1.stackList, s.clients = []) →
      (l.removeClient gw c).2 = none) := by
  have hlen : (l.removeClient gw c).1.stackList.length = l.stackList.length :=
    removeClient_length l gw c
  have hco : l.currentStackOffset gw < l.stackList.length := l.cso_lt gw hne
  have hco' : l.currentStackOffset gw < (l.removeClient gw c).1.stackList.length := by
    omega
  refine ⟨?_, ?_, hlen, ?_, ?_⟩
  · intro i hi hmem hbefore
    have hfi : l.stackList.findIdx? (fun s => s.clients.contains c) = some i := by
      refine findIdxQ_some_of _ _ _ default hi (by simpa using hmem) ?_
      intro k hk
      simpa using hbefore k hk
    rw [removeClient_fst_stackList, hfi]
    constructor
    · rw [modifyIdx_getD_same _ _ _ _ hi, WinStack.remove_clients]
    · intro j hj
      exact modifyIdx_getD_other _ _ _ _ _ hj
  · intro hall
    have hfi : l.stackList.findIdx? (fun s => s.clients.contains c) = none := by
      cases hfi : l.stackList.findIdx? (fun s => s.clients.contains c) with
      | none => rfl
      | some i =>
        have hi : i < l.stackList.length := findIdxQ_some_lt _ _ _ hfi
        have hp := findIdxQ_some_getD _ _ i default hfi
        have hmem : l.stackList.getD i default ∈ l.stackList := by
          rw [List.getD_eq_getElem _ _ hi]
          exact List.getElem_mem _
        exact absurd (by simpa using hp) (hall _ hmem)
    have hfst : (l.removeClient gw c).1.stackList = l.stackList := by
      rw [removeClient_fst_stackList, hfi]
    cases hl : l.removeClient gw c with
    | mk fst snd =>
      cases fst with
      | mk cfg sl =>
        have h1 : cfg = l.cfg := by
          have : (l.removeClient gw c).1.cfg = l.cfg := rfl
          rw [hl] at this
          exact this
        have h2 : sl = l.stackList := by
          rw [hl] at hfst
          exact hfst
        cases l with
        | mk lcfg lsl =>
          simp only at h1 h2
          rw [h1, h2]
  · rw [removeClient_snd_eq]
    rw [findNext_reverse_eq _ _ hco']
  · intro hall
    rw [removeClient_snd_eq]
    have hemp : ((l.removeClient gw c).1.stackList.getD (l.currentStackOffset gw)
        default).clients = [] := by
      apply hall
      rw [List.getD_eq_getElem _ _ hco']
      exact List.getElem_mem _
    have hcw : ((l.removeClient gw c).1.stackList.getD (l.currentStackOffset gw)
        default).cw = none := (WinStack.cw_eq_none_iff _).mpr hemp
    rw [hcw]
    have hfind : (StackLayout.findNext (l.removeClient gw c).1.stackList.reverse
        ((l.removeClient gw c).1.stackList.length -
          l.currentStackOffset gw - 1)) = none := by
      rw [findNext_reverse_eq _ _ hco']
      apply List.find?_eq_none.mpr
      intro x hx
      have hxmem : x ∈ (l.removeClient gw c).1.stackList := by
        rcases List.mem_append.mp hx with h | h
        · exact List.mem_of_mem_take (List.mem_reverse.mp h)
        · exact List.mem_of_mem_drop (List.mem_reverse.mp h)
      simp [hall x hxmem]
    rw [hfind]
    rfl

/-- Witness for C5's amended theorem at the counterexample state. -/
theorem remove_focus_target_witness :
    (StackLayout.removeClient
        ⟨{}, [⟨[1], 0, false⟩, ⟨[2], 0, false⟩, ⟨[3], 0, false⟩]⟩ (some 2) 2).1.stackList.length =
      ([⟨[1], 0, false⟩, ⟨[2], 0, false⟩, ⟨[3], 0, false⟩] : List WinStack).length :=
  (remove_focus_target ⟨{}, [⟨[1], 0, false⟩, ⟨[2], 0, false⟩, ⟨[3], 0, false⟩]⟩
    (some 2) 2 (by decide)).2.2.1

theorem isEmpty_false_of_ne {l : List Nat} (h : l ≠ []) : l.isEmpty = false := by
  cases hx : l.isEmpty with
  | false => rfl
  | true => exact absurd (List.isEmpty_iff.mp hx) h

theorem deleteCurrentStack_eq (l : StackLayout) (gw : Option Nat)
    (h : 1 < l.stackList.length) :
    l.deleteCurrentStack gw = { l with stackList :=
      (modifyIdx (l.stackList.eraseIdx (l.currentStackOffset gw))
        (min (l.currentStackOffset gw)
          ((l.stackList.eraseIdx (l.currentStackOffset gw)).length - 1))
        (fun t => t.join (l.stackList.getD (l.currentStackOffset gw) default) 1)) } := by
  unfold StackLayout.deleteCurrentStack
  simp only [h, if_true]

/-- C6: with more than one stack, `delete_current_stack` removes the current
stack, clamps the offset, and joins the removed stack's members into the
stack now at that offset at relative position 1 (right after that stack's
current item); the stack count drops by one and no client is lost.  In the
scenario stack0=[A,B] (current A), stack1=[C], the single resulting stack
holds exactly A, B and C. -/
theorem delete_current_stack_merges (l : StackLayout) (gw : Option Nat)
    (h : 1 < l.stackList.length) (co off2 : Nat) (s target : WinStack)
    (hco : co = l.currentStackOffset gw)
    (hs : s = l.stackList.getD co default)
    (hoff : off2 = min co ((l.stackList.eraseIdx co).length - 1))
    (ht : target = (l.stackList.eraseIdx co).getD off2 default) :
    (l.deleteCurrentStack gw).stackList.length = l.stackList.length - 1 ∧
    (joinClients (l.deleteCurrentStack gw).stackList).Perm (joinClients l.stackList) ∧
    (∀ j, j ≠ off2 → (l.deleteCurrentStack gw).stackList.getD j default =
        (l.stackList.eraseIdx co).getD j default) ∧
    (l.deleteCurrentStack gw).stackList.getD off2 default = target.join s 1 ∧
    (target.clients ≠ [] → target.curIdx < target.clients.length →
      (target.join s 1).clients =
        target.clients.take (target.curIdx + 1) ++ s.clients ++
          target.clients.drop (target.curIdx + 1)) ∧
    (StackLayout.deleteCurrentStack ⟨{}, [⟨[1, 2], 0, false⟩, ⟨[3], 0, false⟩]⟩
        (some 1)).stackList.map WinStack.clients = [[3, 1, 2]] ∧
    ((StackLayout.deleteCurrentStack ⟨{}, [⟨[1, 2], 0, false⟩, ⟨[3], 0, false⟩]⟩
        (some 1)).stackList.getD 0 default).clients.Perm [1, 2, 3] := by
  have hne : l.stackList ≠ [] := by
    intro hnil; rw [hnil] at h; simp at h
  have hcolt : l.currentStackOffset gw < l.stackList.length := l.cso_lt gw hne
  have hlen' : (l.stackList.eraseIdx (l.currentStackOffset gw)).length =
      l.stackList.length - 1 := List.length_eraseIdx_of_lt hcolt
  have hofflt : min (l.currentStackOffset gw)
      ((l.stackList.eraseIdx (l.currentStackOffset gw)).length - 1) <
      (l.stackList.eraseIdx (l.currentStackOffset gw)).length := by
    omega
  subst hco hs hoff ht
  refine ⟨?_, deleteCurrentStack_join_perm l gw h, ?_, ?_, ?_, by decide, by decide⟩
  · rw [deleteCurrentStack_eq l gw h]
    simp only [modifyIdx_length]
    exact hlen'
  · intro j hj
    rw [deleteCurrentStack_eq l gw h]
    exact modifyIdx_getD_other _ _ _ _ _ hj
  · rw [deleteCurrentStack_eq l gw h]
    exact modifyIdx_getD_same _ _ _ _ hofflt
  · intro hte htc
    unfold WinStack.join
    have hig : ((l.stackList.eraseIdx (l.currentStackOffset gw)).getD
        (min (l.currentStackOffset gw)
          ((l.stackList.eraseIdx (l.currentStackOffset gw)).length - 1))
        default).clients.isEmpty = false := isEmpty_false_of_ne hte
    simp only [hig, Bool.false_eq_true, if_false]
    rw [Nat.mod_eq_of_lt htc]
    have hmin : min
        (((l.stackList.eraseIdx (l.currentStackOffset gw)).getD
          (min (l.currentStackOffset gw)
            ((l.stackList.eraseIdx (l.currentStackOffset gw)).length - 1))
          default).curIdx + 1)
        (((l.stackList.eraseIdx (l.currentStackOffset gw)).getD
          (min (l.currentStackOffset gw)
            ((l.stackList.eraseIdx (l.currentStackOffset gw)).length - 1))
          default).clients.length) =
        (((l.stackList.eraseIdx (l.currentStackOffset gw)).getD
          (min (l.currentStackOffset gw)
            ((l.stackList.eraseIdx (l.currentStackOffset gw)).length - 1))
          default).curIdx + 1) := by
      omega
    rw [hmin]

/-- Witness for C6 at the scenario state. -/
theorem delete_current_stack_merges_witness :
    (StackLayout.deleteCurrentStack ⟨{}, [⟨[1, 2], 0, false⟩, ⟨[3], 0, false⟩]⟩
        (some 1)).stackList.length =
      ([⟨[1, 2], 0, false⟩, ⟨[3], 0, false⟩] : List WinStack).length - 1 :=
  (delete_current_stack_merges ⟨{}, [⟨[1, 2], 0, false⟩, ⟨[3], 0, false⟩]⟩ (some 1)
    (by decide) 0 0 ⟨[1, 2], 0, false⟩ ⟨[3], 0, false⟩
    (by decide) (by decide) (by decide) (by decide)).1

/-- C7: for a client owned by stack `i` of `k` stacks, `configure` places it
at x-offset `screen_rect.x + i * (width / k)` with width `width / k - 2 *
border_width`; in a split stack it occupies row `index(client)` of
`len(stack)` rows of height `height / len(stack)` and is always shown; in an
unsplit stack the current client occupies the full column height minus
borders, and any non-current client is hidden. -/
theorem configure_geometry (l : StackLayout) (client : Nat) (hf : Bool)
    (r : ScreenRect) (i : Nat) (hi : i < l.stackList.length)
    (hmem : client ∈ (l.stackList.getD i default).clients)
    (hfirst : ∀ k, k < i → client ∉ (l.stackList.getD k default).clients) :
    ((l.stackList.getD i default).split = true →
      ∃ px, l.configure client hf r = ConfigureResult.placed
        (r.x + (i : Int) * ((r.width / l.stackList.length : Nat) : Int))
        (r.y + (((l.stackList.getD i default).clients.indexOf client : Nat) : Int) *
          ((r.height / (l.stackList.getD i default).clients.length : Nat) : Int))
        (((r.width / l.stackList.length : Nat) : Int) - 2 * (l.cfg.border_width : Int))
        (((r.height / (l.stackList.getD i default).clients.length : Nat) : Int) -
          2 * (l.cfg.border_width : Int))
        l.cfg.border_width px l.cfg.margin) ∧
    ((l.stackList.getD i default).split = false →
      ((l.stackList.getD i default).cw = some client →
        ∃ px, l.configure client hf r = ConfigureResult.placed
          (r.x + (i : Int) * ((r.width / l.stackList.length : Nat) : Int))
          r.y
          (((r.width / l.stackList.length : Nat) : Int) - 2 * (l.cfg.border_width : Int))
          ((r.height : Int) - 2 * (l.cfg.border_width : Int))
          l.cfg.border_width px l.cfg.margin) ∧
      ((l.stackList.getD i default).cw ≠ some client →
        l.configure client hf r = ConfigureResult.hidden)) := by
  have hfi : l.stackList.findIdx? (fun s => s.clients.contains client) = some i := by
    refine findIdxQ_some_of _ _ _ default hi (by simpa using hmem) ?_
    intro k hk
    simpa using hfirst k hk
  constructor
  · intro hsplit
    unfold StackLayout.configure
    rw [hfi]
    simp only [hsplit, if_true]
    exact ⟨_, rfl⟩
  · intro hsplit
    constructor
    · intro hcw
      unfold StackLayout.configure
      rw [hfi]
      simp only [hsplit, Bool.false_eq_true, if_false, hcw]
      simp only [if_true]
      exact ⟨_, rfl⟩
    · intro hcw
      unfold StackLayout.configure
      rw [hfi]
      simp only [hsplit, Bool.false_eq_true, if_false]
      rw [if_neg hcw]

/-- Witness for C7 on a one-stack unsplit layout: the current client gets the
full-height placement, a non-current member is hidden. -/
theorem configure_geometry_witness :
    (∃ px, StackLayout.configure ⟨{}, [⟨[1, 2], 0, false⟩]⟩ 1 true ⟨0, 0, 100, 60⟩ =
      ConfigureResult.placed
        ((0 : Int) + ((0 : Nat) : Int) * (((100 : Nat) / 1 : Nat) : Int))
        (0 : Int)
        ((((100 : Nat) / 1 : Nat) : Int) - 2 * ((1 : Nat) : Int))
        (((60 : Nat) : Int) - 2 * ((1 : Nat) : Int)) 1 px 0) ∧
    StackLayout.configure ⟨{}, [⟨[1, 2], 0, false⟩]⟩ 2 false ⟨0, 0, 100, 60⟩ =
      ConfigureResult.hidden :=
  ⟨((configure_geometry ⟨{}, [⟨[1, 2], 0, false⟩]⟩ 1 true ⟨0, 0, 100, 60⟩ 0 (by decide)
      (by decide) (by decide)).2 rfl).1 rfl,
    ((configure_geometry ⟨{}, [⟨[1, 2], 0, false⟩]⟩ 2 false ⟨0, 0, 100, 60⟩ 0 (by decide)
      (by decide) (by decide)).2 rfl).2 (by decide)⟩

theorem configure_px (l : StackLayout) (client : Nat) (hf : Bool) (r : ScreenRect)
    (i : Nat) (hi : i < l.stackList.length)
    (hmem : client ∈ (l.stackList.getD i default).clients)
    (hfirst : ∀ k, k < i → client ∉ (l.stackList.getD k default).clients)
    (x y w h : Int) (bw : Nat) (px : String) (mg : Nat)
    (heq : l.configure client hf r = ConfigureResult.placed x y w h bw px mg) :
    px = if hf then
        (match l.cfg.border_focus_stack with
          | some b => if (l.stackList.getD i default).split then l.cfg.border_focus else b
          | none => l.cfg.border_focus)
      else
        (match l.cfg.border_normal_stack with
          | some b => if (l.stackList.getD i default).split then l.cfg.border_normal else b
          | none => l.cfg.border_normal) := by
  have hfi : l.stackList.findIdx? (fun s => s.clients.contains client) = some i := by
    refine findIdxQ_some_of _ _ _ default hi (by simpa using hmem) ?_
    intro k hk
    simpa using hfirst k hk
  unfold StackLayout.configure at heq
  rw [hfi] at heq
  cases hsp : (l.stackList.getD i default).split with
  | true =>
    simp only [hsp, if_true] at heq
    cases heq
    rfl
  | false =>
    simp only [hsp, Bool.false_eq_true, if_false] at heq
    by_cases hcw : (l.stackList.getD i default).cw = some client
    · rw [if_pos hcw] at heq
      cases heq
      rfl
    · rw [if_neg hcw] at heq
      cases heq

/-- C8: a focused client gets `border_focus` unless its stack is unsplit and
`border_focus_stack` is configured, in which case it gets
`border_focus_stack`; symmetrically an unfocused client gets `border_normal`
unless its stack is unsplit and `border_normal_stack` is configured. -/
theorem configure_border_colors (l : StackLayout) (client : Nat) (r : ScreenRect)
    (i : Nat) (hi : i < l.stackList.length)
    (hmem : client ∈ (l.stackList.getD i default).clients)
    (hfirst : ∀ k, k < i → client ∉ (l.stackList.getD k default).clients) :
    (∀ x y w h bw px mg,
      ((l.stackList.getD i default).split = true ∨ l.cfg.border_focus_stack = none) →
      l.configure client true r = ConfigureResult.placed x y w h bw px mg →
      px = l.cfg.border_focus) ∧
    (∀ x y w h bw px mg b,
      (l.stackList.getD i default).split = false → l.cfg.border_focus_stack = some b →
      l.configure client true r = ConfigureResult.placed x y w h bw px mg →
      px = b) ∧
    (∀ x y w h bw px mg,
      ((l.stackList.getD i default).split = true ∨ l.cfg.border_normal_stack = none) →
      l.configure client false r = ConfigureResult.placed x y w h bw px mg →
      px = l.cfg.border_normal) ∧
    (∀ x y w h bw px mg b,
      (l.stackList.getD i default).split = false → l.cfg.border_normal_stack = some b →
      l.configure client false r = ConfigureResult.placed x y w h bw px mg →
      px = b) := by
  refine ⟨?_, ?_, ?_, ?_⟩
  · intro x y w h bw px mg hcond heq
    have hpx := configure_px l client true r i hi hmem hfirst x y w h bw px mg heq
    rcases hcond with hsp | hbfs
    · cases hbfs : l.cfg.border_focus_stack with
      | none =>
        rw [hbfs] at hpx
        simpa using hpx
      | some b =>
        rw [hbfs, hsp] at hpx
        simpa using hpx
    · rw [hbfs] at hpx
      simpa using hpx
  · intro x y w h bw px mg b hsp hbfs heq
    have hpx := configure_px l client true r i hi hmem hfirst x y w h bw px mg heq
    rw [hbfs, hsp] at hpx
    simpa using hpx
  · intro x y w h bw px mg hcond heq
    have hpx := configure_px l client false r i hi hmem hfirst x y w h bw px mg heq
    rcases hcond with hsp | hbns
    · cases hbns : l.cfg.border_normal_stack with
      | none =>
        rw [hbns] at hpx
        simpa using hpx
      | some b =>
        rw [hbns, hsp] at hpx
        simpa using hpx
    · rw [hbns] at hpx
      simpa using hpx
  · intro x y w h bw px mg b hsp hbns heq
    have hpx := configure_px l client false r i hi hmem hfirst x y w h bw px mg heq
    rw [hbns, hsp] at hpx
    simpa using hpx

/-- Witness for C8: unsplit stack with `border_focus_stack` configured gives
the stack colour to the focused client. -/
theorem configure_border_colors_witness :
    StackLayout.configure
        ⟨{ border_focus_stack := some "#ff0000" }, [⟨[1], 0, false⟩]⟩ 1 true
        ⟨0, 0, 100, 60⟩ =
      ConfigureResult.placed 0 0 98 58 1 "#ff0000" 0 ∧
    "#ff0000" = "#ff0000" :=
  ⟨rfl,
    (configure_border_colors
      ⟨{ border_focus_stack := some "#ff0000" }, [⟨[1], 0, false⟩]⟩ 1
      ⟨0, 0, 100, 60⟩ 0 (by decide) (by decide) (by decide)).2.1
      0 0 98 58 1 "#ff0000" 0 "#ff0000" rfl rfl rfl⟩

/-- C9: `client_to_stack(n)` is a no-op when the current stack is empty;
otherwise it removes the current stack's current client and inserts it into
stack `n mod len(stacks)` (Python modulo, valid for every integer `n`),
making it that stack's current client; with 2 stacks, `client_to_stack(-1)`
sends the client to stack 1. -/
theorem client_to_stack_moves (l : StackLayout) (gw : Option Nat) (n : Int)
    (hne : l.stackList ≠ []) :
    ((l.stackList.getD (l.currentStackOffset gw) default).clients = [] →
      l.clientToStack gw n = l) ∧
    (∀ win, (l.stackList.getD (l.currentStackOffset gw) default).clients ≠ [] →
      (l.stackList.getD (l.currentStackOffset gw) default).cw = some win →
      (n % (l.stackList.length : Int)).toNat < l.stackList.length ∧
      (l.clientToStack gw n).stackList.length = l.stackList.length ∧
      ((l.clientToStack gw n).stackList.getD (n % (l.stackList.length : Int)).toNat
          default).cw = some win ∧
      win ∈ ((l.clientToStack gw n).stackList.getD (n % (l.stackList.length : Int)).toNat
          default).clients ∧
      (∀ j, j ≠ l.currentStackOffset gw → j ≠ (n % (l.stackList.length : Int)).toNat →
        (l.clientToStack gw n).stackList.getD j default = l.stackList.getD j default) ∧
      ((n % (l.stackList.length : Int)).toNat ≠ l.currentStackOffset gw →
        ((l.clientToStack gw n).stackList.getD (l.currentStackOffset gw) default).clients =
          (l.stackList.getD (l.currentStackOffset gw) default).clients.erase win)) ∧
    ((StackLayout.clientToStack ⟨{}, [⟨[1, 2], 0, false⟩, ⟨[3], 0, false⟩]⟩ (some 1)
        (-1)).stackList.map WinStack.clients = [[2], [3, 1]] ∧
      ((StackLayout.clientToStack ⟨{}, [⟨[1, 2], 0, false⟩, ⟨[3], 0, false⟩]⟩ (some 1)
        (-1)).stackList.getD 1 default).cw = some 1) := by
  have hpos : 0 < l.stackList.length := List.length_pos.mpr hne
  refine ⟨?_, ?_, by decide, by decide⟩
  · intro hemp
    simp only [StackLayout.clientToStack]
    split
    next => rfl
    next hcontr => exact absurd (List.isEmpty_iff.mpr hemp) hcontr
  · intro win hclne hcw
    have hco : l.currentStackOffset gw < l.stackList.length := l.cso_lt gw hne
    have hm0 : (0 : Int) ≤ n % (l.stackList.length : Int) :=
      Int.emod_nonneg n (by exact_mod_cast Nat.pos_iff_ne_zero.mp hpos)
    have hmlt : n % (l.stackList.length : Int) < (l.stackList.length : Int) :=
      Int.emod_lt_of_pos n (by exact_mod_cast hpos)
    have hnxt : (n % (l.stackList.length : Int)).toNat < l.stackList.length := by omega
    have heq : l.clientToStack gw n = { l with stackList :=
        (modifyIdx (modifyIdx l.stackList (l.currentStackOffset gw)
            (fun s => s.remove win))
          (n % (l.stackList.length : Int)).toNat
          (fun s => (s.addClient win).focus win)) } := by
      simp only [StackLayout.clientToStack]
      split
      next hcontr => exact absurd (List.isEmpty_iff.mp hcontr) hclne
      next =>
        split
        next hnone => rw [hcw] at hnone; exact Option.noConfusion hnone
        next win2 hcw2 =>
          rw [hcw] at hcw2
          cases hcw2
          rfl
    have hlen1 : (modifyIdx l.stackList (l.currentStackOffset gw)
        (fun s => s.remove win)).length = l.stackList.length := modifyIdx_length _ _ _
    have hlen : (l.clientToStack gw n).stackList.length = l.stackList.length := by
      rw [heq]
      simp [modifyIdx_length, hlen1]
    have hnxt1 : (n % (l.stackList.length : Int)).toNat <
        (modifyIdx l.stackList (l.currentStackOffset gw)
          (fun s => s.remove win)).length := by
      rw [hlen1]; exact hnxt
    have hgetnxt : (l.clientToStack gw n).stackList.getD
        (n % (l.stackList.length : Int)).toNat default =
        ((((modifyIdx l.stackList (l.currentStackOffset gw)
            (fun s => s.remove win)).getD
          (n % (l.stackList.length : Int)).toNat default).addClient win).focus win) := by
      rw [heq]
      exact modifyIdx_getD_same _ _ _ _ hnxt1
    refine ⟨hnxt, hlen, ?_, ?_, ?_, ?_⟩
    · rw [hgetnxt]
      exact WinStack.addClient_focus_cw _ win
    · rw [hgetnxt]
      exact WinStack.cw_mem _ _ (WinStack.addClient_focus_cw _ win)
    · intro j hjco hjnxt
      rw [heq]
      have h1 := modifyIdx_getD_other (modifyIdx l.stackList (l.currentStackOffset gw)
        (fun s => s.remove win)) ((n % (l.stackList.length : Int)).toNat) j
        (fun s => (s.addClient win).focus win) default hjnxt
      have h2 := modifyIdx_getD_other l.stackList (l.currentStackOffset gw) j
        (fun s => s.remove win) default hjco
      exact h1.trans h2
    · intro hdiff
      rw [heq]
      have h1 := modifyIdx_getD_other (modifyIdx l.stackList (l.currentStackOffset gw)
        (fun s => s.remove win)) ((n % (l.stackList.length : Int)).toNat)
        (l.currentStackOffset gw)
        (fun s => (s.addClient win).focus win) default (fun hc => hdiff hc.symm)
      rw [h1, modifyIdx_getD_same _ _ _ _ hco, WinStack.remove_clients]

/-- Witness for C9 at the scenario state. -/
theorem client_to_stack_moves_witness :
    (StackLayout.clientToStack ⟨{}, [⟨[1, 2], 0, false⟩, ⟨[3], 0, false⟩]⟩ (some 1)
        (-1)).stackList.length =
      ([⟨[1, 2], 0, false⟩, ⟨[3], 0, false⟩] : List WinStack).length :=
  ((client_to_stack_moves ⟨{}, [⟨[1, 2], 0, false⟩, ⟨[3], 0, false⟩]⟩ (some 1) (-1)
    (by decide)).2.1 1 (by decide) rfl).2.1

theorem mem_take_iff_getD (ss : List WinStack) (m : Nat) (x : WinStack) :
    x ∈ ss.take m ↔ ∃ i, i < m ∧ i < ss.length ∧ ss.getD i default = x := by
  rw [List.mem_iff_getElem?]
  constructor
  · rintro ⟨n, hn⟩
    have hlt : n < (ss.take m).length := by
      rcases List.getElem?_eq_some.mp hn with ⟨h, _⟩
      exact h
    rw [List.length_take] at hlt
    have hnm : n < m := lt_of_lt_of_le hlt (min_le_left _ _)
    have hnl : n < ss.length := lt_of_lt_of_le hlt (min_le_right _ _)
    refine ⟨n, hnm, hnl, ?_⟩
    rw [List.getElem?_take_of_lt hnm] at hn
    rw [List.getD_eq_getElem?_getD, hn]
    rfl
  · rintro ⟨i, him, hil, hx⟩
    refine ⟨i, ?_⟩
    rw [List.getElem?_take_of_lt him, List.getElem?_eq_getElem hil]
    rw [List.getD_eq_getElem?_getD, List.getElem?_eq_getElem hil] at hx
    exact congrArg some hx

theorem mem_drop_iff_getD (ss : List WinStack) (m : Nat) (x : WinStack) :
    x ∈ ss.drop m ↔ ∃ i, m ≤ i ∧ i < ss.length ∧ ss.getD i default = x := by
  rw [List.mem_iff_getElem?]
  constructor
  · rintro ⟨n, hn⟩
    rw [List.getElem?_drop] at hn
    have hlt : m + n < ss.length := by
      rcases List.getElem?_eq_some.mp hn with ⟨h, _⟩
      exact h
    refine ⟨m + n, Nat.le_add_right _ _, hlt, ?_⟩
    rw [List.getD_eq_getElem?_getD, hn]
    rfl
  · rintro ⟨i, hmi, hil, hx⟩
    refine ⟨i - m, ?_⟩
    rw [List.getElem?_drop]
    have hadd : m + (i - m) = i := by omega
    rw [hadd, List.getElem?_eq_getElem hil]
    rw [List.getD_eq_getElem?_getD, List.getElem?_eq_getElem hil] at hx
    exact congrArg some hx

theorem find?_ne_bind_cw_isSome_iff (L : List WinStack) :
    ((L.find? (fun s => !s.clients.isEmpty)).bind WinStack.cw).isSome = true ↔
      ∃ x ∈ L, x.clients ≠ [] := by
  cases hf : L.find? (fun s => !s.clients.isEmpty) with
  | some s =>
    have hs : s.clients ≠ [] := by
      have hps := List.find?_some hf
      intro hc
      rw [hc] at hps
      simp at hps
    simp only [Option.bind]
    constructor
    · intro _
      exact ⟨s, List.mem_of_find?_eq_some hf, hs⟩
    · intro _
      exact WinStack.cw_isSome_of_ne s hs
  | none =>
    simp only [Option.bind]
    constructor
    · intro h
      simp at h
    · rintro ⟨x, hx, hxe⟩
      have hnp := List.find?_eq_none.mp hf x hx
      have hp : (!x.clients.isEmpty) = true := by
        rw [isEmpty_false_of_ne hxe]
        rfl
      exact absurd hp hnp

theorem findNext_eq_find?_append (lst : List WinStack) (off : Nat) :
    StackLayout.findNext lst off =
      ((lst.drop (off + 1)) ++ lst.take off).find? (fun s => !s.clients.isEmpty) := by
  unfold StackLayout.findNext
  rw [List.find?_append]

theorem exists_nonempty_besides_iff (ss : List WinStack) (co : Nat) :
    ((∃ x ∈ ss.drop (co + 1), x.clients ≠ []) ∨ ∃ x ∈ ss.take co, x.clients ≠ []) ↔
      ∃ i, i < ss.length ∧ i ≠ co ∧ (ss.getD i default).clients ≠ [] := by
  constructor
  · rintro (⟨x, hx, hxe⟩ | ⟨x, hx, hxe⟩)
    · obtain ⟨i, hge, hlt, heq⟩ := (mem_drop_iff_getD ss (co + 1) x).mp hx
      refine ⟨i, hlt, by omega, ?_⟩
      rw [heq]
      exact hxe
    · obtain ⟨i, hltco, hlt, heq⟩ := (mem_take_iff_getD ss co x).mp hx
      refine ⟨i, hlt, by omega, ?_⟩
      rw [heq]
      exact hxe
  · rintro ⟨i, hlt, hnei, hxe⟩
    rcases Nat.lt_or_ge co i with h | h
    · exact Or.inl ⟨ss.getD i default,
        (mem_drop_iff_getD ss (co + 1) _).mpr ⟨i, by omega, hlt, rfl⟩, hxe⟩
    · have hico : i < co := by omega
      exact Or.inr ⟨ss.getD i default,
        (mem_take_iff_getD ss co _).mpr ⟨i, hico, hlt, rfl⟩, hxe⟩

/-- C10: `next_stack()` and `previous_stack()` issue a focus request exactly
when some stack at an index other than the current offset is non-empty: the
wraparound search never considers the stack at the current offset itself, so
when the current stack is the only non-empty one both calls are silent
no-ops. -/
theorem next_previous_stack_skip_current (l : StackLayout) (gw : Option Nat)
    (hne : l.stackList ≠ []) :
    ((l.nextStack gw).isSome = true ↔
      ∃ i, i < l.stackList.length ∧ i ≠ l.currentStackOffset gw ∧
        (l.stackList.getD i default).clients ≠ []) ∧
    ((l.previousStack gw).isSome = true ↔
      ∃ i, i < l.stackList.length ∧ i ≠ l.currentStackOffset gw ∧
        (l.stackList.getD i default).clients ≠ []) ∧
    ((∀ i, i < l.stackList.length → i ≠ l.currentStackOffset gw →
        (l.stackList.getD i default).clients = []) →
      l.nextStack gw = none ∧ l.previousStack gw = none) := by
  have hco : l.currentStackOffset gw < l.stackList.length := l.cso_lt gw hne
  have hnext : (l.nextStack gw).isSome = true ↔
      ∃ i, i < l.stackList.length ∧ i ≠ l.currentStackOffset gw ∧
        (l.stackList.getD i default).clients ≠ [] := by
    unfold StackLayout.nextStack
    rw [findNext_eq_find?_append, find?_ne_bind_cw_isSome_iff]
    rw [← exists_nonempty_besides_iff l.stackList (l.currentStackOffset gw)]
    constructor
    · rintro ⟨x, hx, hxe⟩
      rcases List.mem_append.mp hx with h | h
      · exact Or.inl ⟨x, h, hxe⟩
      · exact Or.inr ⟨x, h, hxe⟩
    · rintro (⟨x, hx, hxe⟩ | ⟨x, hx, hxe⟩)
      · exact ⟨x, List.mem_append.mpr (Or.inl hx), hxe⟩
      · exact ⟨x, List.mem_append.mpr (Or.inr hx), hxe⟩
  have hprev : (l.previousStack gw).isSome = true ↔
      ∃ i, i < l.stackList.length ∧ i ≠ l.currentStackOffset gw ∧
        (l.stackList.getD i default).clients ≠ [] := by
    unfold StackLayout.previousStack
    rw [findNext_reverse_eq _ _ hco, find?_ne_bind_cw_isSome_iff]
    rw [← exists_nonempty_besides_iff l.stackList (l.currentStackOffset gw)]
    constructor
    · rintro ⟨x, hx, hxe⟩
      rcases List.mem_append.mp hx with h | h
      · exact Or.inr ⟨x, List.mem_reverse.mp h, hxe⟩
      · exact Or.inl ⟨x, List.mem_reverse.mp h, hxe⟩
    · rintro (⟨x, hx, hxe⟩ | ⟨x, hx, hxe⟩)
      · exact ⟨x, List.mem_append.mpr (Or.inr (List.mem_reverse.mpr hx)), hxe⟩
      · exact ⟨x, List.mem_append.mpr (Or.inl (List.mem_reverse.mpr hx)), hxe⟩
  refine ⟨hnext, hprev, ?_⟩
  · intro hall
    constructor
    · cases hcase : l.nextStack gw with
      | none => rfl
      | some w =>
        have : (l.nextStack gw).isSome = true := by rw [hcase]; rfl
        obtain ⟨i, h1, h2, h3⟩ := hnext.mp this
        exact absurd (hall i h1 h2) h3
    · cases hcase : l.previousStack gw with
      | none => rfl
      | some w =>
        have : (l.previousStack gw).isSome = true := by rw [hcase]; rfl
        obtain ⟨i, h1, h2, h3⟩ := hprev.mp this
        exact absurd (hall i h1 h2) h3

/-- Witness for C10: with only the current stack non-empty, both calls are
silent even though a non-empty stack exists. -/
theorem next_previous_stack_skip_current_witness :
    StackLayout.nextStack ⟨{}, [⟨[1], 0, false⟩, ⟨[], 0, false⟩]⟩ (some 1) = none ∧
    StackLayout.previousStack ⟨{}, [⟨[1], 0, false⟩, ⟨[], 0, false⟩]⟩ (some 1) = none :=
  (next_previous_stack_skip_current ⟨{}, [⟨[1], 0, false⟩, ⟨[], 0, false⟩]⟩ (some 1)
    (by decide)).2.2 (by decide)
